import Mathlib

/-!
Verification of the wherez peer-discovery library (nictuku/wherez).

Shallow embedding of the core subsystems:
* infohash derivation (`infoHash` in wherez.go): SHA-1 of the first half of
  the SHA-256 of the passphrase;
* the TCP challenge/response authentication protocol (auth.go):
  `handleConn` (server side), `verifyPeer` / `checkPeer` (client side),
  `checkMAC` (HMAC-SHA256 comparison);
* the discovery driver control flow (`findAuthenticatedPeers`).

Bytes are modelled as `Nat` values below 256, byte strings as `List Nat`;
32-bit machine arithmetic is `Nat` arithmetic reduced modulo `2 ^ 32`.
SHA-256, SHA-1 and HMAC-SHA256 are implemented in full so that the
concrete infohash test vector can be checked by evaluation.
-/

namespace Wherez

/-- Truncation to a 32-bit word, the implicit wrap of Go `uint32` arithmetic. -/
def w32 (x : Nat) : Nat := x % 4294967296

/-- Left rotation of a 32-bit word by `n` bits (0 < n < 32). -/
def rotl32 (x n : Nat) : Nat := w32 ((x <<< n) + (x >>> (32 - n)))

/-- Right rotation of a 32-bit word by `n` bits (0 < n < 32). -/
def rotr32 (x n : Nat) : Nat := w32 ((x >>> n) + ((x % (2 ^ n)) <<< (32 - n)))

/-- Big-endian byte serialization of `x` into exactly `n` bytes. -/
def toBytesBE : Nat → Nat → List Nat
  | 0, _ => []
  | n + 1, x => toBytesBE n (x >>> 8) ++ [x % 256]

theorem toBytesBE_length (n x : Nat) : (toBytesBE n x).length = n := by
  induction n generalizing x with
  | zero => rfl
  | succ m ih => simp [toBytesBE, ih]

/-- Group a byte list into big-endian 32-bit words, four bytes per word. -/
def toWordsBE : List Nat → List Nat
  | a :: b :: c :: d :: rest => (((a * 256 + b) * 256 + c) * 256 + d) :: toWordsBE rest
  | _ => []

/-- Merkle–Damgård padding shared by SHA-1 and SHA-256: append `0x80`, zero
bytes up to 56 mod 64, then the bit length as a 64-bit big-endian integer. -/
def padMessage (msg : List Nat) : List Nat :=
  msg ++ [128] ++ List.replicate ((119 - msg.length % 64) % 64) 0
      ++ toBytesBE 8 (msg.length * 8)

/-- Split a byte list into 64-byte blocks; `fuel` bounds the recursion. -/
def chunks64Aux : Nat → List Nat → List (List Nat)
  | 0, _ => []
  | _, [] => []
  | fuel + 1, l => l.take 64 :: chunks64Aux fuel (l.drop 64)

/-- Split a byte list into 64-byte blocks. -/
def chunks64 (l : List Nat) : List (List Nat) := chunks64Aux l.length l

/-- State of the SHA-256 compression function: eight 32-bit words. -/
structure Sha256State where
  sa : Nat
  sb : Nat
  sc : Nat
  sd : Nat
  se : Nat
  sf : Nat
  sg : Nat
  sh : Nat
deriving Repr, DecidableEq

/-- SHA-256 initial hash value (decimal form of the FIPS 180-4 words). -/
def sha256Init : Sha256State :=
  ⟨1779033703, 3144134277, 1013904242, 2773480762,
   1359893119, 2600822924, 528734635, 1541459225⟩

/-- SHA-256 round constants (decimal form of the FIPS 180-4 words). -/
def sha256K : List Nat :=
  [1116352408, 1899447441, 3049323471, 3921009573, 961987163, 1508970993,
   2453635748, 2870763221, 3624381080, 310598401, 607225278, 1426881987,
   1925078388, 2162078206, 2614888103, 3248222580, 3835390401, 4022224774,
   264347078, 604807628, 770255983, 1249150122, 1555081692, 1996064986,
   2554220882, 2821834349, 2952996808, 3210313671, 3336571891, 3584528711,
   113926993, 338241895, 666307205, 773529912, 1294757372, 1396182291,
   1695183700, 1986661051, 2177026350, 2456956037, 2730485921, 2820302411,
   3259730800, 3345764771, 3516065817, 3600352804, 4094571909, 275423344,
   430227734, 506948616, 659060556, 883997877, 958139571, 1322822218,
   1537002063, 1747873779, 1955562222, 2024104815, 2227730452, 2361852424,
   2428436474, 2756734187, 3204031479, 3329325298]

/-- Small sigma-0 of the SHA-256 message schedule. -/
def ssig0 (x : Nat) : Nat := (rotr32 x 7) ^^^ (rotr32 x 18) ^^^ (x >>> 3)

/-- Small sigma-1 of the SHA-256 message schedule. -/
def ssig1 (x : Nat) : Nat := (rotr32 x 17) ^^^ (rotr32 x 19) ^^^ (x >>> 10)

/-- Big sigma-0 of the SHA-256 round function. -/
def bsig0 (x : Nat) : Nat := (rotr32 x 2) ^^^ (rotr32 x 13) ^^^ (rotr32 x 22)

/-- Big sigma-1 of the SHA-256 round function. -/
def bsig1 (x : Nat) : Nat := (rotr32 x 6) ^^^ (rotr32 x 11) ^^^ (rotr32 x 25)

/-- Choice function of SHA-256 (and rounds 0–19 of SHA-1); the xor with
`2 ^ 32 - 1` is bitwise complement on 32-bit words. -/
def chF (x y z : Nat) : Nat := (x &&& y) ^^^ ((x ^^^ 4294967295) &&& z)

/-- Majority function of SHA-256 (and rounds 40–59 of SHA-1). -/
def majF (x y z : Nat) : Nat := (x &&& y) ^^^ (x &&& z) ^^^ (y &&& z)

/-- Extend a 16-word block schedule; each step appends one more word. -/
def sha256Extend : Nat → List Nat → List Nat
  | 0, ws => ws
  | fuel + 1, ws =>
    let i := ws.length
    let w := w32 (ssig1 (ws.getD (i - 2) 0) + ws.getD (i - 7) 0 +
                  ssig0 (ws.getD (i - 15) 0) + ws.getD (i - 16) 0)
    sha256Extend fuel (ws ++ [w])

/-- One SHA-256 round, consuming one `(k, w)` constant/schedule pair. -/
def sha256Round (st : Sha256State) (kw : Nat × Nat) : Sha256State :=
  let t1 := w32 (st.sh + bsig1 st.se + chF st.se st.sf st.sg + kw.1 + kw.2)
  let t2 := w32 (bsig0 st.sa + majF st.sa st.sb st.sc)
  ⟨w32 (t1 + t2), st.sa, st.sb, st.sc, w32 (st.sd + t1), st.se, st.sf, st.sg⟩

/-- SHA-256 compression of one 64-byte block into the running state. -/
def sha256Block (st : Sha256State) (block : List Nat) : Sha256State :=
  let ws := sha256Extend 48 (toWordsBE block)
  let r := (sha256K.zip ws).foldl sha256Round st
  ⟨w32 (st.sa + r.sa), w32 (st.sb + r.sb), w32 (st.sc + r.sc), w32 (st.sd + r.sd),
   w32 (st.se + r.se), w32 (st.sf + r.sf), w32 (st.sg + r.sg), w32 (st.sh + r.sh)⟩

/-- Serialize a SHA-256 state as the 32-byte big-endian digest. -/
def sha256DigestBytes (st : Sha256State) : List Nat :=
  toBytesBE 4 st.sa ++ toBytesBE 4 st.sb ++ toBytesBE 4 st.sc ++ toBytesBE 4 st.sd ++
  toBytesBE 4 st.se ++ toBytesBE 4 st.sf ++ toBytesBE 4 st.sg ++ toBytesBE 4 st.sh

/-- SHA-256 of a byte string, as its 32 digest bytes. -/
def sha256 (msg : List Nat) : List Nat :=
  sha256DigestBytes ((chunks64 (padMessage msg)).foldl sha256Block sha256Init)

theorem sha256_length (msg : List Nat) : (sha256 msg).length = 32 := by
  simp [sha256, sha256DigestBytes, toBytesBE_length]

/-- State of the SHA-1 compression function: five 32-bit words. -/
structure Sha1State where
  ha : Nat
  hb : Nat
  hc : Nat
  hd : Nat
  he : Nat
deriving Repr, DecidableEq

/-- SHA-1 initial hash value (decimal form of the FIPS 180-4 words). -/
def sha1Init : Sha1State :=
  ⟨1732584193, 4023233417, 2562383102, 271733878, 3285377520⟩

/-- Extend a 16-word SHA-1 block schedule to 80 words. -/
def sha1Extend : Nat → List Nat → List Nat
  | 0, ws => ws
  | fuel + 1, ws =>
    let i := ws.length
    let w := rotl32 (ws.getD (i - 3) 0 ^^^ ws.getD (i - 8) 0 ^^^
                     ws.getD (i - 14) 0 ^^^ ws.getD (i - 16) 0) 1
    sha1Extend fuel (ws ++ [w])

/-- Round function and constant of SHA-1 for round index `i`. -/
def sha1FK (i b c d : Nat) : Nat × Nat :=
  if i < 20 then (chF b c d, 1518500249)
  else if i < 40 then (b ^^^ c ^^^ d, 1859775393)
  else if i < 60 then (majF b c d, 2400959708)
  else (b ^^^ c ^^^ d, 3395469782)

/-- One SHA-1 round, consuming one `(index, scheduleWord)` pair. -/
def sha1Round (st : Sha1State) (iw : Nat × Nat) : Sha1State :=
  let fk := sha1FK iw.1 st.hb st.hc st.hd
  let t := w32 (rotl32 st.ha 5 + fk.1 + st.he + fk.2 + iw.2)
  ⟨t, st.ha, rotl32 st.hb 30, st.hc, st.hd⟩

/-- SHA-1 compression of one 64-byte block into the running state. -/
def sha1Block (st : Sha1State) (block : List Nat) : Sha1State :=
  let ws := sha1Extend 64 (toWordsBE block)
  let r := ws.enum.foldl sha1Round st
  ⟨w32 (st.ha + r.ha), w32 (st.hb + r.hb), w32 (st.hc + r.hc),
   w32 (st.hd + r.hd), w32 (st.he + r.he)⟩

/-- Serialize a SHA-1 state as the 20-byte big-endian digest. -/
def sha1DigestBytes (st : Sha1State) : List Nat :=
  toBytesBE 4 st.ha ++ toBytesBE 4 st.hb ++ toBytesBE 4 st.hc ++
  toBytesBE 4 st.hd ++ toBytesBE 4 st.he

/-- SHA-1 of a byte string, as its 20 digest bytes. -/
def sha1 (msg : List Nat) : List Nat :=
  sha1DigestBytes ((chunks64 (padMessage msg)).foldl sha1Block sha1Init)

theorem sha1_length (msg : List Nat) : (sha1 msg).length = 20 := by
  simp [sha1, sha1DigestBytes, toBytesBE_length]

/-- HMAC-SHA256 with key `key` over message `msg`, exactly as Go
`hmac.New(sha256.New, key)` followed by `Write(msg)` and `Sum(nil)`:
the key is hashed if longer than the 64-byte block, zero-padded to 64
bytes, and the digest is `SHA-256(opad ++ SHA-256(ipad ++ msg))`. -/
def hmacSha256 (key msg : List Nat) : List Nat :=
  let k0 := if 64 < key.length then sha256 key else key
  let kp := k0 ++ List.replicate (64 - k0.length) 0
  sha256 ((kp.map (fun b => b ^^^ 92)) ++
          sha256 ((kp.map (fun b => b ^^^ 54)) ++ msg))

theorem hmacSha256_length (key msg : List Nat) :
    (hmacSha256 key msg).length = 32 := sha256_length _

/-- Little-endian byte serialization of `x` into exactly `n` bytes,
matching Go `binary.LittleEndian`. -/
def toBytesLE : Nat → Nat → List Nat
  | 0, _ => []
  | n + 1, x => x % 256 :: toBytesLE n (x >>> 8)

/-- Go conversion `uint16(x)` of a signed `int`: truncation to the low
16 bits, i.e. the mathematical value modulo `2 ^ 16`. -/
def goUint16 (x : Int) : Nat := (x % 65536).toNat

/-- ASCII bytes of the `"wherez"` magic header (auth.go `magicHeader`). -/
def magicHeader : List Nat := [119, 104, 101, 114, 101, 122]

/-- The 36-byte challenge message of auth.go: 6-byte magic header,
10-byte dedupe ID, 20-byte random challenge nonce. -/
structure Challenge where
  magicHeader : List Nat
  dedupe : List Nat
  challenge : List Nat
deriving Repr, DecidableEq

/-- Go `newChallenge` with the random nonce made explicit: magic header,
the process dedupe ID, and the 20 random bytes. -/
def newChallenge (dedupe nonce : List Nat) : Challenge :=
  ⟨magicHeader, dedupe, nonce⟩

/-- Wire form of a challenge: the 36 bytes `binary.Write` emits, fields
in declaration order. -/
def challengeBytes (c : Challenge) : List Nat :=
  c.magicHeader ++ c.dedupe ++ c.challenge

/-- Go `binary.Read` of a `Challenge` from a connection that delivers
`input`: succeeds when at least 36 bytes arrive, splitting the first 36
into the three fields; errors (returning `none`) on a short read. -/
def readChallenge (input : List Nat) : Option Challenge :=
  if 36 ≤ input.length then
    some ⟨input.take 6, (input.drop 6).take 10, (input.drop 16).take 20⟩
  else none

/-- The 34-byte response of auth.go: a little-endian `uint16` application
port followed by the 32-byte HMAC of the challenge nonce. -/
structure Response where
  port : Nat
  mac : List Nat
deriving Repr, DecidableEq

/-- Go `binary.Read` of a `Response`: succeeds when at least 34 bytes
arrive; the port is the first two bytes little-endian, the MAC the next
32 bytes. -/
def readResponse (input : List Nat) : Option Response :=
  if 34 ≤ input.length then
    some ⟨input.getD 0 0 + 256 * input.getD 1 0, (input.drop 2).take 32⟩
  else none

/-- Go `checkMAC` (auth.go): recompute `HMAC-SHA256(key, message)` and
compare with `hmac.Equal`, which is equality of the byte strings. -/
def checkMAC (message messageMAC key : List Nat) : Bool :=
  messageMAC == hmacSha256 key message

/-- The `Peer` value delivered to the caller; `Addr` is the Go field. -/
structure Peer where
  Addr : String
deriving Repr, DecidableEq

/-- Go `Peer.String()`: `fmt.Sprintf` of the address field. -/
def peerString (p : Peer) : String := p.Addr

/-- Body of Go `handleConn` after a challenge was parsed: drop the
connection (empty reply) unless the magic header matches; drop it when
the dedupe ID is our own and self connections are suppressed; otherwise
answer with the port as little-endian `uint16(appPort)` followed by
`HMAC-SHA256(passphrase, challenge)`. -/
def handleConnChallenge (cIn : Challenge) (appPort : Int)
    (passphrase dedupe : List Nat) (allowSelfConnection : Bool) : List Nat :=
  if cIn.magicHeader = magicHeader then
    if allowSelfConnection = false ∧ cIn.dedupe = dedupe then []
    else toBytesLE 2 (goUint16 appPort) ++ hmacSha256 passphrase cIn.challenge
  else []

/-- Go `handleConn` (auth.go), as the function from the bytes delivered
by the incoming connection to the bytes written back before closing;
`[]` models the silent close without a response. -/
def handleConn (input : List Nat) (appPort : Int)
    (passphrase dedupe : List Nat) (allowSelfConnection : Bool) : List Nat :=
  match readChallenge input with
  | none => []
  | some cIn => handleConnChallenge cIn appPort passphrase dedupe allowSelfConnection

/-- Go `verifyPeer` (auth.go) with the I/O made explicit: the dialed
address is the pair `(peerHost, peerPort)` (Go splits the `host:port`
string), `nonce` is the challenge nonce that was just written, and
`respBytes` are the bytes the remote side answers with. A short reply is
the `binary.Read` error; a MAC mismatch is the
`"Invalid challenge response"` error; otherwise the returned peer is
`host:port` with the port taken from the response. -/
def verifyPeer (peerHost : String) (peerPort : Nat) (passphrase : List Nat)
    (nonce : List Nat) (respBytes : List Nat) : Except String Peer :=
  match readResponse respBytes with
  | none => Except.error "read error"
  | some r =>
    if checkMAC nonce r.mac passphrase then
      Except.ok ⟨peerHost ++ ":" ++ toString r.port⟩
    else
      Except.error "Invalid challenge response"

/-- Go `checkPeer` (auth.go): the value sent on the output channel, when
any — `some peer` exactly when `verifyPeer` returned a nil error. -/
def checkPeer (peerHost : String) (peerPort : Nat) (passphrase : List Nat)
    (nonce : List Nat) (respBytes : List Nat) : Option Peer :=
  match verifyPeer peerHost peerPort passphrase nonce respBytes with
  | Except.ok peer => some peer
  | Except.error _ => none

/-- Decidable equality for authentication outcomes, so concrete runs of
`verifyPeer` can be checked by evaluation. -/
instance : DecidableEq (Except String Peer) := fun a b =>
  match a, b with
  | Except.error x, Except.error y =>
    if h : x = y then isTrue (by rw [h])
    else isFalse (fun hc => h (by cases hc; rfl))
  | Except.ok x, Except.ok y =>
    if h : x = y then isTrue (by rw [h])
    else isFalse (fun hc => h (by cases hc; rfl))
  | Except.error _, Except.ok _ => isFalse (fun hc => Except.noConfusion hc)
  | Except.ok _, Except.error _ => isFalse (fun hc => Except.noConfusion hc)

/-- One complete client–server exchange: the client dials
`(peerHost, peerPort)` and writes a fresh challenge built from its
dedupe ID and nonce; the listener runs `handleConn` keyed with
`serverPass` and its own dedupe ID; the client then verifies the reply
with `clientPass`. -/
def authExchange (peerHost : String) (peerPort : Nat)
    (clientPass serverPass clientDedupe serverDedupe nonce : List Nat)
    (appPort : Int) (allowSelfConnection : Bool) : Except String Peer :=
  verifyPeer peerHost peerPort clientPass nonce
    (handleConn (challengeBytes (newChallenge clientDedupe nonce))
      appPort serverPass serverDedupe allowSelfConnection)

/-- Go `infoHash` (wherez.go): SHA-256 of the passphrase, keep the first
half (16 bytes), SHA-1 of that; the error component of the Go return
value is always nil. -/
def infoHash (passphrase : List Nat) : Except String (List Nat) :=
  Except.ok (sha1 ((sha256 passphrase).take 16))

/-- Go `listenAuth` (auth.go) with the bind outcome made explicit: on a
successful TCP bind it hands every accepted connection to `handleConn`
with `appPort` and the passphrase unchanged — no inspection or
validation of `appPort` happens — and returns the bound address; on a
bind failure it returns the error. -/
def listenAuth (bindOk : Bool) (port : Nat) (appPort : Int)
    (passphrase : List Nat) : Except String (Nat × Int × List Nat) :=
  if bindOk then Except.ok (port, appPort, passphrase) else Except.error "bind error"

/-- Observable outcome of one run of the discovery driver
`findAuthenticatedPeers` (wherez.go): whether the deferred `close(c)`
ran (the function returned), whether the auth listener was started,
the announce flag handed to the DHT, and whether the infinite
`PeersRequest` loop was entered. -/
structure DriverRun where
  closedChannel : Bool
  listenerStarted : Bool
  announce : Bool
  requestLoop : Bool
deriving Repr, DecidableEq

/-- Go `findAuthenticatedPeers` (wherez.go) control flow, with the two
environment-dependent outcomes (listener bind, DHT node creation) as
booleans: compute the infohash (close on error); when `appPort > 0` set
announce and start the listener (close on bind failure); create the DHT
node (close on failure); otherwise enter the request loop forever, so
the deferred close never runs. -/
def findAuthenticatedPeersRun (passphrase : List Nat) (appPort : Int)
    (listenOk dhtOk : Bool) : DriverRun :=
  match infoHash passphrase with
  | Except.error _ => ⟨true, false, false, false⟩
  | Except.ok _ =>
    if 0 < appPort then
      if listenOk then
        if dhtOk then ⟨false, true, true, true⟩
        else ⟨true, true, true, false⟩
      else ⟨true, false, true, false⟩
    else
      if dhtOk then ⟨false, false, false, true⟩
      else ⟨true, false, false, false⟩

/-! Helper lemmas about parsing and the accepting path of the protocol. -/

theorem challengeBytes_length (d n : List Nat) (hd : d.length = 10)
    (hn : n.length = 20) : (challengeBytes (newChallenge d n)).length = 36 := by
  simp [challengeBytes, newChallenge, magicHeader, hd, hn]

theorem readChallenge_challengeBytes (d n : List Nat) (hd : d.length = 10)
    (hn : n.length = 20) :
    readChallenge (challengeBytes (newChallenge d n)) = some ⟨magicHeader, d, n⟩ := by
  have hlen := challengeBytes_length d n hd hn
  have h6 : (challengeBytes (newChallenge d n)).take 6 = magicHeader := by
    show ((magicHeader ++ d) ++ n).take 6 = magicHeader
    rw [List.append_assoc]
    exact List.take_left' rfl
  have h10 : ((challengeBytes (newChallenge d n)).drop 6).take 10 = d := by
    show (((magicHeader ++ d) ++ n).drop 6).take 10 = d
    rw [List.append_assoc]
    have hdrop : (magicHeader ++ (d ++ n)).drop 6 = d ++ n := List.drop_left' rfl
    rw [hdrop]
    exact List.take_left' hd
  have h20 : ((challengeBytes (newChallenge d n)).drop 16).take 20 = n := by
    show (((magicHeader ++ d) ++ n).drop 16).take 20 = n
    have hdrop : ((magicHeader ++ d) ++ n).drop 16 = n :=
      List.drop_left' (by simp [magicHeader, hd])
    rw [hdrop]
    exact List.take_of_length_le (by omega)
  unfold readChallenge
  rw [if_pos (by omega), h6, h10, h20]

theorem goUint16_lt (x : Int) : goUint16 x < 65536 := by
  unfold goUint16
  have h1 : 0 ≤ x % 65536 := Int.emod_nonneg x (by norm_num)
  have h2 : x % 65536 < 65536 := Int.emod_lt_of_pos x (by norm_num)
  omega

theorem goUint16_of_range (x : Int) (h0 : 0 ≤ x) (h1 : x < 65536) :
    goUint16 x = x.toNat := by
  unfold goUint16
  rw [Int.emod_eq_of_lt h0 h1]

theorem handleConn_accept (input : List Nat) (appPort : Int)
    (pass dOwn : List Nat) (allowSelf : Bool)
    (hlen : input.length = 36) (hmagic : input.take 6 = magicHeader)
    (hded : allowSelf = true ∨ (input.drop 6).take 10 ≠ dOwn) :
    handleConn input appPort pass dOwn allowSelf =
      toBytesLE 2 (goUint16 appPort) ++
        hmacSha256 pass ((input.drop 16).take 20) := by
  have hr : readChallenge input =
      some ⟨input.take 6, (input.drop 6).take 10, (input.drop 16).take 20⟩ := by
    unfold readChallenge
    rw [if_pos (by omega)]
  simp only [handleConn, hr, handleConnChallenge]
  rw [if_pos hmagic, if_neg ?hneg]
  rcases hded with h | h
  · intro hc
    rw [h] at hc
    exact absurd hc.1 (by simp)
  · intro hc
    exact h hc.2

theorem handleConn_drop (input : List Nat) (appPort : Int)
    (pass dOwn : List Nat) (allowSelf : Bool)
    (h : input.length < 36 ∨ input.take 6 ≠ magicHeader) :
    handleConn input appPort pass dOwn allowSelf = [] := by
  rcases h with h | h
  · have hr : readChallenge input = none := by
      unfold readChallenge
      rw [if_neg (by omega)]
    rw [handleConn, hr]
  · by_cases h36 : 36 ≤ input.length
    · have hr : readChallenge input =
          some ⟨input.take 6, (input.drop 6).take 10, (input.drop 16).take 20⟩ := by
        unfold readChallenge
        rw [if_pos h36]
      simp only [handleConn, hr, handleConnChallenge]
      rw [if_neg h]
    · have hr : readChallenge input = none := by
        unfold readChallenge
        rw [if_neg h36]
      rw [handleConn, hr]

theorem toBytesLE_two (p : Nat) : toBytesLE 2 p = [p % 256, (p >>> 8) % 256] := rfl

theorem readResponse_decode (p : Nat) (mac : List Nat)
    (hp : p < 65536) (hm : mac.length = 32) :
    readResponse (toBytesLE 2 p ++ mac) = some ⟨p, mac⟩ := by
  have hs : p >>> 8 = p / 256 := Nat.shiftRight_eq_div_pow p 8
  have hb : toBytesLE 2 p ++ mac = p % 256 :: (p >>> 8) % 256 :: mac := rfl
  rw [hb]
  unfold readResponse
  rw [if_pos (by simp [hm])]
  have hg0 : (p % 256 :: (p >>> 8) % 256 :: mac).getD 0 0 = p % 256 := rfl
  have hg1 : (p % 256 :: (p >>> 8) % 256 :: mac).getD 1 0 = (p >>> 8) % 256 := rfl
  have hd2 : (p % 256 :: (p >>> 8) % 256 :: mac).drop 2 = mac := rfl
  rw [hg0, hg1, hd2]
  have ht : mac.take 32 = mac := List.take_of_length_le (by omega)
  rw [ht]
  have hsum : p % 256 + 256 * ((p >>> 8) % 256) = p := by
    rw [hs]
    omega
  rw [hsum]

theorem verifyPeer_ok (peerHost : String) (peerPort : Nat)
    (pass nonce : List Nat) (p : Nat) (mac : List Nat)
    (hp : p < 65536) (hm : mac.length = 32)
    (hmac : mac = hmacSha256 pass nonce) :
    verifyPeer peerHost peerPort pass nonce (toBytesLE 2 p ++ mac) =
      Except.ok ⟨peerHost ++ ":" ++ toString p⟩ := by
  have hc : checkMAC nonce mac pass = true := by
    simp [checkMAC, hmac]
  simp only [verifyPeer, readResponse_decode p mac hp hm]
  rw [if_pos hc]

theorem verifyPeer_eq_none (peerHost : String) (peerPort : Nat)
    (pass nonce respBytes : List Nat)
    (hr : readResponse respBytes = none) :
    verifyPeer peerHost peerPort pass nonce respBytes =
      Except.error "read error" := by
  simp only [verifyPeer, hr]

theorem verifyPeer_eq_some (peerHost : String) (peerPort : Nat)
    (pass nonce respBytes : List Nat) (r : Response)
    (hr : readResponse respBytes = some r) :
    verifyPeer peerHost peerPort pass nonce respBytes =
      if checkMAC nonce r.mac pass then
        Except.ok ⟨peerHost ++ ":" ++ toString r.port⟩
      else Except.error "Invalid challenge response" := by
  simp only [verifyPeer, hr]

theorem handleConn_challengeBytes (d n : List Nat) (hd : d.length = 10)
    (hn : n.length = 20) (appPort : Int) (pass dOwn : List Nat) (allowSelf : Bool)
    (hded : allowSelf = true ∨ d ≠ dOwn) :
    handleConn (challengeBytes (newChallenge d n)) appPort pass dOwn allowSelf =
      toBytesLE 2 (goUint16 appPort) ++ hmacSha256 pass n := by
  have hch := readChallenge_challengeBytes d n hd hn
  simp only [handleConn, hch, handleConnChallenge]
  rw [if_pos trivial, if_neg ?hneg]
  rcases hded with h | h
  · intro hc
    rw [h] at hc
    exact absurd hc.1 (by simp)
  · intro hc
    exact h hc.2

theorem verifyPeer_macFail (peerHost : String) (peerPort : Nat)
    (pass nonce : List Nat) (p : Nat) (mac : List Nat)
    (hp : p < 65536) (hm : mac.length = 32)
    (hmac : mac ≠ hmacSha256 pass nonce) :
    verifyPeer peerHost peerPort pass nonce (toBytesLE 2 p ++ mac) =
      Except.error "Invalid challenge response" := by
  have hc : checkMAC nonce mac pass = false := by
    simp [checkMAC, hmac]
  simp only [verifyPeer, readResponse_decode p mac hp hm]
  rw [if_neg (by simp [hc])]

/-! Claim theorems. -/

set_option maxRecDepth 10000 in
/-- Claim C3 (infohash derivation): for every byte string `p` the derived
infohash is SHA-1 of the first 16 bytes of SHA-256 of `p`, is exactly 20
bytes long, and equal inputs always yield equal outputs; in particular the
infohash of `"aaaaa"` is the 20-byte value with hex form
`97207c9437e672af8e1731f6a7200a78623886ea`. -/
theorem infoHash_derivation (p q : List Nat) (hpq : p = q) :
    infoHash p = infoHash q
    ∧ infoHash p = Except.ok (sha1 ((sha256 p).take 16))
    ∧ (∀ d, infoHash p = Except.ok d → d.length = 20)
    ∧ infoHash [97, 97, 97, 97, 97] =
        Except.ok [0x97, 0x20, 0x7c, 0x94, 0x37, 0xe6, 0x72, 0xaf, 0x8e, 0x17,
                   0x31, 0xf6, 0xa7, 0x20, 0x0a, 0x78, 0x62, 0x38, 0x86, 0xea] := by
  have hv : sha1 ((sha256 [97, 97, 97, 97, 97]).take 16) =
      [0x97, 0x20, 0x7c, 0x94, 0x37, 0xe6, 0x72, 0xaf, 0x8e, 0x17,
       0x31, 0xf6, 0xa7, 0x20, 0x0a, 0x78, 0x62, 0x38, 0x86, 0xea] := by decide
  refine ⟨by rw [hpq], rfl, ?_, by rw [infoHash, hv]⟩
  intro d hd
  simp only [infoHash, Except.ok.injEq] at hd
  rw [← hd]
  exact sha1_length _

/-- Claim C3 witness: the derivation theorem applied to the concrete
passphrase `"aaaaa"`, yielding the published test vector. -/
theorem infoHash_derivation_witness :
    infoHash [97, 97, 97, 97, 97] =
      Except.ok [0x97, 0x20, 0x7c, 0x94, 0x37, 0xe6, 0x72, 0xaf, 0x8e, 0x17,
                 0x31, 0xf6, 0xa7, 0x20, 0x0a, 0x78, 0x62, 0x38, 0x86, 0xea] :=
  (infoHash_derivation [97, 97, 97, 97, 97] [97, 97, 97, 97, 97] rfl).2.2.2

/-- Claim C1 (round-trip authentication): with the same passphrase on both
sides and a listener `appPort` in `[1, 65535]`, the full dial/verify
exchange returns, with no error, a Peer whose port component is the
listener's `appPort` and whose string form is `host:appPort`. -/
theorem roundtrip_auth (peerHost : String) (peerPort : Nat)
    (pass clientDedupe serverDedupe nonce : List Nat) (appPort : Int)
    (allowSelf : Bool)
    (hd : clientDedupe.length = 10) (hn : nonce.length = 20)
    (hlo : 1 ≤ appPort) (hhi : appPort ≤ 65535)
    (hself : allowSelf = true ∨ clientDedupe ≠ serverDedupe) :
    authExchange peerHost peerPort pass pass clientDedupe serverDedupe nonce
        appPort allowSelf
      = Except.ok ⟨peerHost ++ ":" ++ toString appPort.toNat⟩
    ∧ ∀ peer, authExchange peerHost peerPort pass pass clientDedupe serverDedupe nonce
          appPort allowSelf = Except.ok peer →
        peerString peer = peerHost ++ ":" ++ toString appPort.toNat := by
  have hacc := handleConn_challengeBytes clientDedupe nonce hd hn appPort pass
    serverDedupe allowSelf hself
  have hport : goUint16 appPort = appPort.toNat :=
    goUint16_of_range appPort (by omega) (by omega)
  have hmain : authExchange peerHost peerPort pass pass clientDedupe serverDedupe nonce
      appPort allowSelf = Except.ok ⟨peerHost ++ ":" ++ toString appPort.toNat⟩ := by
    unfold authExchange
    rw [hacc, hport]
    exact verifyPeer_ok peerHost peerPort pass nonce appPort.toNat
      (hmacSha256 pass nonce) (by omega) (hmacSha256_length pass nonce) rfl
  refine ⟨hmain, ?_⟩
  intro peer hpeer
  rw [hmain] at hpeer
  cases hpeer
  rfl

/-- Claim C1 witness: the round-trip theorem at the loopback scenario of
the unit test — passphrase `"secret"`, `appPort = 3000`, self-filter
disabled — producing the peer `"localhost:3000"`. -/
theorem roundtrip_auth_witness :
    authExchange "localhost" 43627 [115, 101, 99, 114, 101, 116]
        [115, 101, 99, 114, 101, 116] (List.replicate 10 0) (List.replicate 10 0)
        (List.replicate 20 7) 3000 true
      = Except.ok ⟨"localhost:3000"⟩ := by
  have h := (roundtrip_auth "localhost" 43627 [115, 101, 99, 114, 101, 116]
    (List.replicate 10 0) (List.replicate 10 0) (List.replicate 20 7) 3000 true
    (by decide) (by decide) (by decide) (by decide) (Or.inl rfl)).1
  exact h

/-- Claim C2 (auth soundness): when the client passphrase `p1` and server
passphrase `p2` give different HMACs for the nonce used, the exchange ends
in the MAC-mismatch `AuthError` (`"Invalid challenge response"`) and never
in a Peer. -/
theorem auth_soundness (peerHost : String) (peerPort : Nat)
    (p1 p2 clientDedupe serverDedupe nonce : List Nat) (appPort : Int)
    (allowSelf : Bool)
    (hd : clientDedupe.length = 10) (hn : nonce.length = 20)
    (hself : allowSelf = true ∨ clientDedupe ≠ serverDedupe)
    (hdiff : hmacSha256 p1 nonce ≠ hmacSha256 p2 nonce) :
    authExchange peerHost peerPort p1 p2 clientDedupe serverDedupe nonce
        appPort allowSelf = Except.error "Invalid challenge response"
    ∧ ∀ peer, authExchange peerHost peerPort p1 p2 clientDedupe serverDedupe nonce
        appPort allowSelf ≠ Except.ok peer := by
  have hacc := handleConn_challengeBytes clientDedupe nonce hd hn appPort p2
    serverDedupe allowSelf hself
  have hmain : authExchange peerHost peerPort p1 p2 clientDedupe serverDedupe nonce
      appPort allowSelf = Except.error "Invalid challenge response" := by
    unfold authExchange
    rw [hacc]
    exact verifyPeer_macFail peerHost peerPort p1 nonce (goUint16 appPort)
      (hmacSha256 p2 nonce) (goUint16_lt appPort) (hmacSha256_length p2 nonce)
      (Ne.symm hdiff)
  refine ⟨hmain, ?_⟩
  intro peer hpeer
  rw [hmain] at hpeer
  exact absurd hpeer (by simp)

set_option maxRecDepth 10000 in
/-- Claim C2 witness: the soundness theorem at concrete distinct
passphrases `[1]` and `[2]` with the all-zero nonce; their HMACs differ by
computation, so the exchange returns the auth error. -/
theorem auth_soundness_witness :
    authExchange "remote" 9999 [1] [2] (List.replicate 10 0)
        (List.replicate 10 0) (List.replicate 20 0) 3000 true
      = Except.error "Invalid challenge response" :=
  (auth_soundness "remote" 9999 [1] [2] (List.replicate 10 0)
    (List.replicate 10 0) (List.replicate 20 0) 3000 true
    (by decide) (by decide) (Or.inl rfl) (by decide)).1

/-- Claim C4 (MAC coverage): for every accepted 36-byte challenge the
response is the 2-byte little-endian port followed by the 32-byte
HMAC-SHA256, keyed by the passphrase, over exactly the 20-byte nonce
field (bytes 16..35) of the challenge; the magic and dedupe fields do not
enter the MAC, so two accepted challenges with the same nonce receive the
same MAC. -/
theorem mac_coverage (input : List Nat) (appPort : Int) (pass dOwn : List Nat)
    (allowSelf : Bool)
    (hlen : input.length = 36) (hmagic : input.take 6 = magicHeader)
    (hded : allowSelf = true ∨ (input.drop 6).take 10 ≠ dOwn) :
    handleConn input appPort pass dOwn allowSelf
      = toBytesLE 2 (goUint16 appPort) ++ hmacSha256 pass ((input.drop 16).take 20)
    ∧ (toBytesLE 2 (goUint16 appPort)).length = 2
    ∧ (hmacSha256 pass ((input.drop 16).take 20)).length = 32
    ∧ (handleConn input appPort pass dOwn allowSelf).drop 2
        = hmacSha256 pass ((input.drop 16).take 20)
    ∧ ∀ input2 : List Nat, input2.length = 36 → input2.take 6 = magicHeader →
        (allowSelf = true ∨ (input2.drop 6).take 10 ≠ dOwn) →
        (input2.drop 16).take 20 = (input.drop 16).take 20 →
        (handleConn input2 appPort pass dOwn allowSelf).drop 2
          = (handleConn input appPort pass dOwn allowSelf).drop 2 := by
  have hacc := handleConn_accept input appPort pass dOwn allowSelf hlen hmagic hded
  have hdrop2 : ∀ m : List Nat,
      (toBytesLE 2 (goUint16 appPort) ++ m).drop 2 = m := fun m => rfl
  refine ⟨hacc, rfl, hmacSha256_length _ _, ?_, ?_⟩
  · rw [hacc]
    exact hdrop2 _
  · intro input2 hlen2 hmagic2 hded2 hnonce
    have hacc2 := handleConn_accept input2 appPort pass dOwn allowSelf hlen2 hmagic2 hded2
    rw [hacc, hacc2, hdrop2, hdrop2, hnonce]

set_option maxRecDepth 10000 in
/-- Claim C4 witness: two concrete accepted challenges that share the
nonce `9, 9, …, 9` but carry different dedupe fields get responses with
identical MAC parts. -/
theorem mac_coverage_witness :
    (handleConn (challengeBytes (newChallenge (List.replicate 10 7) (List.replicate 20 9)))
        3000 [1] (List.replicate 10 0) false).drop 2
      = (handleConn (challengeBytes (newChallenge (List.replicate 10 5) (List.replicate 20 9)))
        3000 [1] (List.replicate 10 0) false).drop 2 := by
  exact (mac_coverage
      (challengeBytes (newChallenge (List.replicate 10 5) (List.replicate 20 9)))
      3000 [1] (List.replicate 10 0) false
      (by decide) (by decide) (Or.inr (by decide))).2.2.2.2
    (challengeBytes (newChallenge (List.replicate 10 7) (List.replicate 20 9)))
    (by decide) (by decide) (Or.inr (by decide)) (by decide)

/-- Claim C6 (self-filter): on a 36-byte challenge with correct magic
whose dedupe field equals the process's own dedupe ID, the handler writes
zero response bytes when self-connection suppression is on
(`allowSelfConnection = false`); with suppression off it answers
normally with the 34-byte response. -/
theorem self_filter (pass dOwn nonce : List Nat) (appPort : Int)
    (hd : dOwn.length = 10) (hn : nonce.length = 20) :
    handleConn (challengeBytes (newChallenge dOwn nonce)) appPort pass dOwn false = []
    ∧ handleConn (challengeBytes (newChallenge dOwn nonce)) appPort pass dOwn true
        = toBytesLE 2 (goUint16 appPort) ++ hmacSha256 pass nonce := by
  constructor
  · have hch := readChallenge_challengeBytes dOwn nonce hd hn
    simp only [handleConn, hch, handleConnChallenge]
    rw [if_pos trivial, if_pos (by simp)]
  · exact handleConn_challengeBytes dOwn nonce hd hn appPort pass dOwn true (Or.inl rfl)

/-- Claim C6 witness: the self-filter theorem at a concrete dedupe ID and
nonce — suppression on yields the empty reply, suppression off yields the
normal response. -/
theorem self_filter_witness :
    handleConn (challengeBytes (newChallenge (List.replicate 10 3) (List.replicate 20 4)))
        3000 [2] (List.replicate 10 3) false = []
    ∧ handleConn (challengeBytes (newChallenge (List.replicate 10 3) (List.replicate 20 4)))
        3000 [2] (List.replicate 10 3) true
      = toBytesLE 2 (goUint16 3000) ++ hmacSha256 [2] (List.replicate 20 4) :=
  self_filter [2] (List.replicate 10 3) (List.replicate 20 4) 3000
    (by decide) (by decide)

/-- Claim C7 (framing guard): a connection that delivers fewer than 36
bytes, or whose first 6 bytes are not the ASCII string `"wherez"`, gets
zero bytes of response from the handler. -/
theorem framing_guard (input : List Nat) (appPort : Int) (pass dOwn : List Nat)
    (allowSelf : Bool)
    (h : input.length < 36 ∨ input.take 6 ≠ magicHeader) :
    handleConn input appPort pass dOwn allowSelf = [] :=
  handleConn_drop input appPort pass dOwn allowSelf h

/-- Claim C7 witness: a 36-byte message beginning with ASCII `"XXXXXX"`
receives zero bytes of response. -/
theorem framing_guard_witness :
    handleConn (List.replicate 6 88 ++ List.replicate 30 0) 3000 [1]
      (List.replicate 10 0) true = [] :=
  framing_guard (List.replicate 6 88 ++ List.replicate 30 0) 3000 [1]
    (List.replicate 10 0) true (Or.inr (by decide))

/-- Claim C5 (emission invariant): a Peer appears on the output channel
(`checkPeer` returns `some`) exactly when `verifyPeer` returned no error,
and that success forces the response MAC to equal
`HMAC-SHA256(passphrase, nonce)` for the nonce of the challenge just sent
on the connection. -/
theorem emission_invariant (peerHost : String) (peerPort : Nat)
    (pass nonce respBytes : List Nat) (peer : Peer)
    (hsent : checkPeer peerHost peerPort pass nonce respBytes = some peer) :
    verifyPeer peerHost peerPort pass nonce respBytes = Except.ok peer
    ∧ (∃ r, readResponse respBytes = some r ∧ r.mac = hmacSha256 pass nonce)
    ∧ ∀ q : Peer, verifyPeer peerHost peerPort pass nonce respBytes = Except.ok q →
        checkPeer peerHost peerPort pass nonce respBytes = some q := by
  have hok : verifyPeer peerHost peerPort pass nonce respBytes = Except.ok peer := by
    unfold checkPeer at hsent
    cases hv : verifyPeer peerHost peerPort pass nonce respBytes with
    | ok q =>
      rw [hv] at hsent
      simp at hsent
      rw [hsent]
    | error e =>
      rw [hv] at hsent
      simp at hsent
  refine ⟨hok, ?_, ?_⟩
  · cases hr : readResponse respBytes with
    | none =>
      rw [verifyPeer_eq_none peerHost peerPort pass nonce respBytes hr] at hok
      exact absurd hok (by simp)
    | some r =>
      rw [verifyPeer_eq_some peerHost peerPort pass nonce respBytes r hr] at hok
      by_cases hc : checkMAC nonce r.mac pass = true
      · refine ⟨r, rfl, ?_⟩
        unfold checkMAC at hc
        exact beq_iff_eq.mp hc
      · rw [if_neg hc] at hok
        exact absurd hok (by simp)
  · intro q hq
    unfold checkPeer
    rw [hq]

set_option maxRecDepth 10000 in
/-- Claim C5 witness: the emission theorem at a concrete well-formed
response — the MAC checks out, so `checkPeer` emits the peer and the
response MAC is the HMAC of the nonce. -/
theorem emission_invariant_witness :
    verifyPeer "h" 1 [1] (List.replicate 20 0)
        (toBytesLE 2 3000 ++ hmacSha256 [1] (List.replicate 20 0))
      = Except.ok ⟨"h:3000"⟩
    ∧ ∃ r, readResponse (toBytesLE 2 3000 ++ hmacSha256 [1] (List.replicate 20 0))
        = some r ∧ r.mac = hmacSha256 [1] (List.replicate 20 0) := by
  have h := emission_invariant "h" 1 [1] (List.replicate 20 0)
    (toBytesLE 2 3000 ++ hmacSha256 [1] (List.replicate 20 0)) ⟨"h:3000"⟩ (by decide)
  exact ⟨h.1, h.2.1⟩

/-- Claim C9 (peer host provenance): a successful `verifyPeer` returns a
Peer whose host component is the host of the dialed remote address and
whose port component is the `appPort` field of the response message; the
port that was dialed plays no role in the result. -/
theorem host_provenance (peerHost : String) (peerPort : Nat)
    (pass nonce respBytes : List Nat) (peer : Peer)
    (h : verifyPeer peerHost peerPort pass nonce respBytes = Except.ok peer) :
    (∃ r, readResponse respBytes = some r ∧
        peer.Addr = peerHost ++ ":" ++ toString r.port)
    ∧ ∀ otherPort : Nat,
        verifyPeer peerHost otherPort pass nonce respBytes = Except.ok peer := by
  constructor
  · cases hr : readResponse respBytes with
    | none =>
      rw [verifyPeer_eq_none peerHost peerPort pass nonce respBytes hr] at h
      exact absurd h (by simp)
    | some r =>
      rw [verifyPeer_eq_some peerHost peerPort pass nonce respBytes r hr] at h
      by_cases hc : checkMAC nonce r.mac pass = true
      · rw [if_pos hc] at h
        refine ⟨r, rfl, ?_⟩
        cases h
        rfl
      · rw [if_neg hc] at h
        exact absurd h (by simp)
  · intro otherPort
    exact h

set_option maxRecDepth 10000 in
/-- Claim C9 witness: the provenance theorem at a concrete successful
verification — the peer is `"host"` paired with the response port 4000,
not with the dialed port 1234. -/
theorem host_provenance_witness :
    (∃ r, readResponse (toBytesLE 2 4000 ++ hmacSha256 [3] (List.replicate 20 2))
        = some r ∧ (Peer.mk "host:4000").Addr = "host" ++ ":" ++ toString r.port)
    ∧ ∀ otherPort : Nat,
        verifyPeer "host" otherPort [3] (List.replicate 20 2)
          (toBytesLE 2 4000 ++ hmacSha256 [3] (List.replicate 20 2))
        = Except.ok ⟨"host:4000"⟩ :=
  host_provenance "host" 1234 [3] (List.replicate 20 2)
    (toBytesLE 2 4000 ++ hmacSha256 [3] (List.replicate 20 2)) ⟨"host:4000"⟩
    (by decide)

/-- Claim C10 (implicit appPort truncation): for every integer `appPort`
the port field of every response written by the handler is
`appPort mod 2 ^ 16` (Go's `uint16` conversion), and `listenAuth`
performs no validation of `appPort`, accepting any integer when the bind
succeeds. -/
theorem appPort_truncation (appPort : Int) (bindPort : Nat)
    (input pass dOwn : List Nat) (allowSelf : Bool)
    (hlen : input.length = 36) (hmagic : input.take 6 = magicHeader)
    (hded : allowSelf = true ∨ (input.drop 6).take 10 ≠ dOwn) :
    (∃ r, readResponse (handleConn input appPort pass dOwn allowSelf) = some r
        ∧ r.port = goUint16 appPort ∧ (r.port : Int) = appPort % 65536)
    ∧ listenAuth true bindPort appPort pass = Except.ok (bindPort, appPort, pass) := by
  constructor
  · have hacc := handleConn_accept input appPort pass dOwn allowSelf hlen hmagic hded
    rw [hacc]
    refine ⟨⟨goUint16 appPort, hmacSha256 pass ((input.drop 16).take 20)⟩, ?_, rfl, ?_⟩
    · exact readResponse_decode (goUint16 appPort) _ (goUint16_lt appPort)
        (hmacSha256_length _ _)
    · show ((goUint16 appPort : Nat) : Int) = appPort % 65536
      unfold goUint16
      have h1 : 0 ≤ appPort % 65536 := Int.emod_nonneg appPort (by norm_num)
      omega
  · rfl

set_option maxRecDepth 10000 in
/-- Claim C10 witness: a listener configured with `appPort = 65536 + 3000`
advertises port 3000 in its response. -/
theorem appPort_truncation_witness :
    ∃ r, readResponse (handleConn
        (challengeBytes (newChallenge (List.replicate 10 0) (List.replicate 20 1)))
        68536 [1] (List.replicate 10 9) false) = some r ∧ r.port = 3000 := by
  obtain ⟨⟨r, hr, hp, _⟩, _⟩ := appPort_truncation 68536 40000
    (challengeBytes (newChallenge (List.replicate 10 0) (List.replicate 20 1)))
    [1] (List.replicate 10 9) false (by decide) (by decide) (Or.inr (by decide))
  refine ⟨r, hr, ?_⟩
  rw [hp]
  decide

/-- Claim C8 (fatal-error-only closure): the driver's output channel is
closed exactly when startup fails — an infohash derivation error (which
in fact never happens), a listener bind failure when `appPort > 0`, or a
DHT creation failure — and otherwise the driver enters the infinite
request loop and never closes the channel; when `appPort ≤ 0` the
listener is not started and the DHT announce flag is false. -/
theorem driver_closure (passphrase : List Nat) (appPort : Int)
    (listenOk dhtOk : Bool) :
    ((findAuthenticatedPeersRun passphrase appPort listenOk dhtOk).closedChannel = true
      ↔ ((∃ e, infoHash passphrase = Except.error e)
          ∨ (0 < appPort ∧ listenOk = false) ∨ dhtOk = false))
    ∧ (findAuthenticatedPeersRun passphrase appPort listenOk dhtOk).requestLoop
        = !(findAuthenticatedPeersRun passphrase appPort listenOk dhtOk).closedChannel
    ∧ (appPort ≤ 0 →
        (findAuthenticatedPeersRun passphrase appPort listenOk dhtOk).listenerStarted = false
        ∧ (findAuthenticatedPeersRun passphrase appPort listenOk dhtOk).announce = false) := by
  simp only [findAuthenticatedPeersRun, infoHash]
  by_cases hp : 0 < appPort
  · cases listenOk <;> cases dhtOk <;> simp [hp]
  · cases listenOk <;> cases dhtOk <;> simp [hp]

/-- Claim C8 witness: the closure theorem at a pure-client run
(`appPort = -1`) with a healthy DHT — the channel stays open, the request
loop runs, no listener is started and announce is off. -/
theorem driver_closure_witness :
    ((findAuthenticatedPeersRun [1] (-1) true true).closedChannel = true
      ↔ ((∃ e, infoHash [1] = Except.error e)
          ∨ (0 < (-1 : Int) ∧ (true : Bool) = false) ∨ (true : Bool) = false))
    ∧ (findAuthenticatedPeersRun [1] (-1) true true).requestLoop
        = !(findAuthenticatedPeersRun [1] (-1) true true).closedChannel
    ∧ ((-1 : Int) ≤ 0 →
        (findAuthenticatedPeersRun [1] (-1) true true).listenerStarted = false
        ∧ (findAuthenticatedPeersRun [1] (-1) true true).announce = false) :=
  driver_closure [1] (-1) true true

end Wherez
